import Mathlib

/-!
Shallow embedding of the `css-typed-om-syntax` crate: a parser turning a CSS
Properties-and-Values "syntax descriptor" string into a list of typed
components.  Input strings are modelled as lists of bytes (`List Nat`).  The
parser's loops carry an explicit fuel parameter; a `none` result stands for
fuel exhaustion (and, for `trim_ascii_whitespace`, for a panicking
`assert!`), and the development proves those cases unreachable.  The external
`cssparser` identifier tokenizer is not part of the repository and is
modelled from the specification's contract for it.
-/

namespace CssSyntax

/-- The bytes of a string literal (code points; identical to the UTF-8
bytes for the ASCII strings used throughout). -/
def strBytes (s : String) : List Nat := s.data.map Char.toNat

/-- Rust's `u8::is_ascii_whitespace`: space, tab, newline, form feed,
carriage return.  Used by the trimmer (`ascii.rs`). -/
def is_ascii_whitespace (b : Nat) : Bool :=
  b == 32 || b == 9 || b == 10 || b == 12 || b == 13

/-- Both scanning loops of `trim_ascii_whitespace` are this one scan: the
number of leading bytes satisfying `is_ascii_whitespace`, or `none` when the
iterator is exhausted before a non-whitespace byte is found (the source then
returns the empty slice early). -/
def leading_ws_count : List Nat → Option Nat
  | [] => none
  | b :: rest =>
    if is_ascii_whitespace b then (leading_ws_count rest).map (· + 1) else some 0

/-- Embedding of `ascii::trim_ascii_whitespace`.  The `none` result models the
`assert!(start < end)` panic; the second loop's `debug_assert!(false)` branch
returns the empty slice, as the release build does. -/
def trim_ascii_whitespace (input : List Nat) : Option (List Nat) :=
  if input.isEmpty then some input
  else
    match leading_ws_count input with
    | none => some []
    | some start =>
      let e := input.length
      if start < e then
        match leading_ws_count (input.drop start).reverse with
        | none => some []
        | some k => some ((input.drop start).take (e - k - start))
      else none

/-- The specification's description of trimming (§4.1): the maximal
contiguous sub-slice with no leading or trailing ASCII-whitespace byte. -/
def trimSpec (l : List Nat) : List Nat :=
  ((l.dropWhile is_ascii_whitespace).reverse.dropWhile is_ascii_whitespace).reverse

/-- Embedding of `ParseError` (lib.rs). -/
inductive ParseError
  | EmptyInput
  | UnexpectedEOF
  | UnexpectedPipe
  | InvalidCustomIdent
  | InvalidNameStart
  | InvalidName
  | UnclosedDataTypeName
  | UnknownDataTypeName
  deriving DecidableEq, Repr

/-- Embedding of `Multiplier` (lib.rs). -/
inductive Multiplier
  | Space
  | Comma
  deriving DecidableEq, Repr

/-- Embedding of `DataType` (lib.rs): the closed enumeration of built-in data types. -/
inductive DataType
  | Length
  | Number
  | Percentage
  | LengthPercentage
  | Color
  | Image
  | Url
  | Integer
  | Angle
  | Time
  | Resolution
  | TransformFunction
  | TransformList
  | CustomIdent
  deriving DecidableEq, Repr

/-- Embedding of `CustomIdent` (lib.rs): a validated identifier, kept as its bytes. -/
structure CustomIdent where
  val : List Nat
  deriving DecidableEq, Repr

/-- Rust's `u8::to_ascii_lowercase`. -/
def to_ascii_lowercase (b : Nat) : Nat :=
  if 65 ≤ b ∧ b ≤ 90 then b + 32 else b

/-- Rust's `eq_ignore_ascii_case` on byte strings. -/
def eq_ignore_ascii_case (a b : List Nat) : Bool :=
  a.map to_ascii_lowercase == b.map to_ascii_lowercase

/-- Embedding of `CustomIdent::from_ident` (lib.rs): reject the CSS-wide keywords,
case-insensitively.  The Rust `Result<Self, ()>` is an `Option` here. -/
def CustomIdent.from_ident (ident : List Nat) : Option CustomIdent :=
  if eq_ignore_ascii_case ident (strBytes "inherit") ||
      eq_ignore_ascii_case ident (strBytes "reset") ||
      eq_ignore_ascii_case ident (strBytes "revert") ||
      eq_ignore_ascii_case ident (strBytes "unset") ||
      eq_ignore_ascii_case ident (strBytes "default") then
    none
  else
    some ⟨ident⟩

/-- Embedding of `ComponentName` (lib.rs). -/
inductive ComponentName
  | DataType (t : CssSyntax.DataType)
  | Ident (i : CustomIdent)
  deriving DecidableEq, Repr

/-- Embedding of `Component` (lib.rs). -/
structure Component where
  name : ComponentName
  multiplier : Option Multiplier
  deriving DecidableEq, Repr

/-- Embedding of `DataType::unpremultiply` (lib.rs). -/
def DataType.unpremultiply : DataType → Option Component
  | .TransformList => some ⟨.DataType .TransformFunction, some .Space⟩
  | _ => none

/-- Embedding of `ComponentName::unpremultiply` (lib.rs). -/
def ComponentName.unpremultiply : ComponentName → Option Component
  | .DataType t => t.unpremultiply
  | .Ident _ => none

/-- Embedding of `ComponentName::is_pre_multiplied` (lib.rs). -/
def ComponentName.is_pre_multiplied (n : ComponentName) : Bool :=
  n.unpremultiply.isSome

/-- Embedding of `Component::unpremultipied` (lib.rs).  The `Cow` return is an ownership
detail; both arms produce the resulting component by value here. -/
def Component.unpremultipied (c : Component) : Component :=
  match c.name.unpremultiply with
  | some component => component
  | none => c

/-- Embedding of `DataType::from_bytes` (lib.rs): exact, case-sensitive match against the
closed vocabulary. -/
def DataType.from_bytes (ty : List Nat) : Option DataType :=
  if ty = strBytes "length" then some .Length
  else if ty = strBytes "number" then some .Number
  else if ty = strBytes "percentage" then some .Percentage
  else if ty = strBytes "length-percentage" then some .LengthPercentage
  else if ty = strBytes "color" then some .Color
  else if ty = strBytes "image" then some .Image
  else if ty = strBytes "url" then some .Url
  else if ty = strBytes "integer" then some .Integer
  else if ty = strBytes "angle" then some .Angle
  else if ty = strBytes "time" then some .Time
  else if ty = strBytes "resolution" then some .Resolution
  else if ty = strBytes "transform-function" then some .TransformFunction
  else if ty = strBytes "custom-ident" then some .CustomIdent
  else if ty = strBytes "transform-list" then some .TransformList
  else none

/-- Embedding of `Descriptor` (lib.rs): the parsed component sequence. -/
structure Descriptor where
  components : List Component
  deriving DecidableEq, Repr

/-- Embedding of `Descriptor::universal` (lib.rs). -/
def Descriptor.universal : Descriptor := ⟨[]⟩

/-- Embedding of `is_whitespace` (lib.rs; css-syntax whitespace): tab, LF, CR, space. -/
def is_whitespace (b : Nat) : Bool :=
  b == 9 || b == 10 || b == 13 || b == 32

/-- Embedding of `is_letter` (lib.rs): ASCII letter. -/
def is_letter (b : Nat) : Bool :=
  (decide (65 ≤ b) && decide (b ≤ 90)) || (decide (97 ≤ b) && decide (b ≤ 122))

/-- Embedding of `is_non_ascii` (lib.rs): byte ≥ 0x80. -/
def is_non_ascii (b : Nat) : Bool :=
  decide (128 ≤ b)

/-- Embedding of `is_name_start` (lib.rs): letter, non-ASCII byte, or `_`. -/
def is_name_start (b : Nat) : Bool :=
  is_letter b || is_non_ascii b || b == 95

/-- Embedding of `Parser::peek` (lib.rs): the byte at the cursor, if any. -/
def peek (input : List Nat) (pos : Nat) : Option Nat :=
  input.get? pos

/-- A CSS name code point (name-start, ASCII digit, or `-`); the byte
alphabet consumed by the identifier tokenizer model below. -/
def is_name_byte (b : Nat) : Bool :=
  is_name_start b || (decide (48 ≤ b) && decide (b ≤ 57)) || b == 45

/-- Modelled from the spec: the external CSS-identifier tokenizer
(`cssparser`'s `expect_ident`), which is not part of this repository.  Per
§6 it "returns the identifier text and the number of bytes consumed, or
fails if the leading content is not a valid CSS identifier token".  It is
modelled as consuming the maximal run of CSS name code points; escape
decoding is owned by the external tokenizer and out of the core's scope
(§4.3), so a leading `\` is not consumed and reported as failure. -/
def expect_ident (s : List Nat) : Option (List Nat × Nat) :=
  let tok := s.takeWhile is_name_byte
  if tok.isEmpty then none else some (tok, tok.length)

/-- Embedding of `Parser::skip_whitespace` (lib.rs), with fuel: the cursor after skipping
css-syntax whitespace. -/
def skip_whitespace : Nat → List Nat → Nat → Option Nat
  | 0, _, _ => none
  | fuel + 1, input, pos =>
    match peek input pos with
    | some c => if is_whitespace c then skip_whitespace fuel input (pos + 1) else some pos
    | none => some pos

/-- Embedding of `Parser::parse_data_type_name` (lib.rs), with fuel: scan from `pos` for
a `>`, resolve the bytes `input[start..pos]`, and consume the `>`. -/
def parse_data_type_name :
    Nat → List Nat → Nat → Nat → Option (Except ParseError (DataType × Nat))
  | 0, _, _, _ => none
  | fuel + 1, input, start, pos =>
    match peek input pos with
    | none => some (.error .UnclosedDataTypeName)
    | some b =>
      if b != 62 then parse_data_type_name fuel input start (pos + 1)
      else
        match DataType.from_bytes ((input.drop start).take (pos - start)) with
        | some ty => some (.ok (ty, pos + 1))
        | none => some (.error .UnknownDataTypeName)

/-- Embedding of `Parser::parse_name` (lib.rs): a bracketed data-type name, or one CSS
identifier token delegated to `expect_ident`. -/
def parse_name (fuel : Nat) (input : List Nat) (pos : Nat) :
    Option (Except ParseError (ComponentName × Nat)) :=
  match peek input pos with
  | none => some (.error .UnexpectedEOF)
  | some b =>
    if b == 60 then
      match parse_data_type_name fuel input (pos + 1) (pos + 1) with
      | none => none
      | some (.error e) => some (.error e)
      | some (.ok (ty, p)) => some (.ok (.DataType ty, p))
    else if b != 92 && !is_name_start b then some (.error .InvalidNameStart)
    else
      match expect_ident (input.drop pos) with
      | none => some (.error .InvalidName)
      | some (name, consumed) =>
        match CustomIdent.from_ident name with
        | none => some (.error .InvalidName)
        | some id => some (.ok (.Ident id, pos + consumed))

/-- Embedding of `Parser::parse_multiplier` (lib.rs): `+` is Space, `#` is Comma,
anything else (or end of input) is no multiplier; never fails. -/
def parse_multiplier (input : List Nat) (pos : Nat) : Option Multiplier × Nat :=
  match peek input pos with
  | some b =>
    if b == 43 then (some .Space, pos + 1)
    else if b == 35 then (some .Comma, pos + 1)
    else (none, pos)
  | none => (none, pos)

/-- Embedding of `Parser::parse_component` (lib.rs): skip whitespace, parse a name, and
parse a multiplier unless the name is pre-multiplied. -/
def parse_component (fuel : Nat) (input : List Nat) (pos : Nat) :
    Option (Except ParseError (Component × Nat)) :=
  match skip_whitespace fuel input pos with
  | none => none
  | some p =>
    match parse_name fuel input p with
    | none => none
    | some (.error e) => some (.error e)
    | some (.ok (name, p1)) =>
      if name.is_pre_multiplied then some (.ok (⟨name, none⟩, p1))
      else
        let (m, p2) := parse_multiplier input p1
        some (.ok (⟨name, m⟩, p2))

/-- Embedding of `Parser::parse` (lib.rs), with fuel: the main loop.  On end of input an
empty output is `UnexpectedEOF`; whitespace is skipped; a `|` before any
component is `UnexpectedPipe`, and after one it is consumed; in either
remaining case a component is parsed and appended, as in the source where
the `|` arm falls through to `parse_component`. -/
def Parser.parse :
    Nat → List Nat → Nat → List Component → Option (Except ParseError (List Component))
  | 0, _, _, _ => none
  | fuel + 1, input, pos, output =>
    match peek input pos with
    | none =>
      if output.isEmpty then some (.error .UnexpectedEOF) else some (.ok output)
    | some byte =>
      if is_whitespace byte then Parser.parse fuel input (pos + 1) output
      else if byte == 124 then
        if output.isEmpty then some (.error .UnexpectedPipe)
        else
          match parse_component (input.length + 1) input (pos + 1) with
          | none => none
          | some (.error e) => some (.error e)
          | some (.ok (c, p)) => Parser.parse fuel input p (output ++ [c])
      else
        match parse_component (input.length + 1) input pos with
        | none => none
        | some (.error e) => some (.error e)
        | some (.ok (c, p)) => Parser.parse fuel input p (output ++ [c])

/-- Embedding of `parse_descriptor` (lib.rs): trim, special-case the empty and `*`
inputs, then run the parser loop.  A `none` result models a panic or fuel
exhaustion; both are proved unreachable. -/
def parse_descriptor (input : List Nat) : Option (Except ParseError Descriptor) :=
  match trim_ascii_whitespace input with
  | none => none
  | some trimmed =>
    if trimmed.isEmpty then some (.error .EmptyInput)
    else if trimmed.length == 1 && trimmed.get? 0 == some 42 then
      some (.ok Descriptor.universal)
    else
      match Parser.parse (trimmed.length + 1) trimmed 0 [] with
      | none => none
      | some (.error e) => some (.error e)
      | some (.ok components) => some (.ok ⟨components⟩)

/-- Whether a parse result is the `InvalidCustomIdent` error (used to state
that this error variant is never produced). -/
def isInvalidCustomIdentResult : Option (Except ParseError Descriptor) → Bool
  | some (.error .InvalidCustomIdent) => true
  | _ => false

end CssSyntax

namespace CssSyntax

/-! ### Lemmas about the whitespace trimmer -/

theorem leading_ws_count_eq_none {l : List Nat} :
    leading_ws_count l = none ↔ ∀ b ∈ l, is_ascii_whitespace b = true := by
  induction l with
  | nil => simp [leading_ws_count]
  | cons b rest ih =>
    by_cases hb : is_ascii_whitespace b
    · simp [leading_ws_count, hb, Option.map_eq_none', ih]
    · simp [leading_ws_count, hb]

theorem leading_ws_count_drop {l : List Nat} {n : Nat} (h : leading_ws_count l = some n) :
    l.drop n = l.dropWhile is_ascii_whitespace ∧ l.dropWhile is_ascii_whitespace ≠ [] := by
  induction l generalizing n with
  | nil => simp [leading_ws_count] at h
  | cons b rest ih =>
    by_cases hb : is_ascii_whitespace b
    · rw [leading_ws_count, if_pos hb] at h
      cases hr : leading_ws_count rest with
      | none => rw [hr] at h; simp at h
      | some m =>
        rw [hr] at h
        simp only [Option.map_some'] at h
        injection h with h
        subst h
        simpa [List.drop_succ_cons, List.dropWhile_cons, hb] using ih hr
    · rw [leading_ws_count, if_neg hb] at h
      injection h with h
      subst h
      simp [List.dropWhile_cons, hb]

/-- The trimmer computes exactly the specification's trim, and in particular
never reaches its `assert!` panic. -/
theorem trim_eq_trimSpec (l : List Nat) :
    trim_ascii_whitespace l = some (trimSpec l) := by
  rcases eq_or_ne l [] with rfl | hne
  · rfl
  · rw [trim_ascii_whitespace, if_neg (by simpa using hne)]
    cases hcount : leading_ws_count l with
    | none =>
      have hall := leading_ws_count_eq_none.mp hcount
      have hdw : l.dropWhile is_ascii_whitespace = [] := List.dropWhile_eq_nil_iff.mpr hall
      simp [trimSpec, hdw]
    | some start =>
      dsimp only
      obtain ⟨hdrop, hnil⟩ := leading_ws_count_drop hcount
      have hlt : start < l.length := by
        by_contra hge
        push_neg at hge
        have hdn : l.drop start = [] := List.drop_eq_nil_of_le hge
        rw [hdrop] at hdn
        exact hnil hdn
      rw [if_pos hlt, hdrop]
      have hhead : is_ascii_whitespace ((l.dropWhile is_ascii_whitespace).head hnil) = false :=
        List.head_dropWhile_not _ _ hnil
      cases hk : leading_ws_count (l.dropWhile is_ascii_whitespace).reverse with
      | none =>
        exfalso
        have hall := leading_ws_count_eq_none.mp hk
        have hmem : (l.dropWhile is_ascii_whitespace).head hnil ∈
            (l.dropWhile is_ascii_whitespace).reverse :=
          List.mem_reverse.mpr (List.head_mem hnil)
        have := hall _ hmem
        rw [hhead] at this
        exact Bool.false_ne_true this
      | some k =>
        dsimp only
        obtain ⟨hdrop2, _⟩ := leading_ws_count_drop hk
        congr 1
        have hrlen : (l.dropWhile is_ascii_whitespace).length = l.length - start := by
          rw [← hdrop, List.length_drop]
        have harith : l.length - k - start = (l.dropWhile is_ascii_whitespace).length - k := by
          omega
        rw [harith, trimSpec, ← hdrop2, List.reverse_drop]
        simp

end CssSyntax

namespace CssSyntax

/-! ### Basic facts about the cursor and the scanning loops -/

theorem peek_eq_none {input : List Nat} {pos : Nat} :
    peek input pos = none ↔ input.length ≤ pos := by
  simp [peek, List.get?_eq_none]

theorem peek_lt {input : List Nat} {pos : Nat} {b : Nat}
    (h : peek input pos = some b) : pos < input.length := by
  by_contra hge
  push_neg at hge
  rw [peek_eq_none.mpr hge] at h
  cases h

theorem skip_whitespace_isSome {input : List Nat} {fuel pos : Nat}
    (h : input.length - pos < fuel) :
    ∃ p, skip_whitespace fuel input pos = some p ∧ pos ≤ p := by
  induction fuel generalizing pos with
  | zero => omega
  | succ fuel ih =>
    rw [skip_whitespace]
    cases hp : peek input pos with
    | none => exact ⟨pos, rfl, Nat.le_refl pos⟩
    | some c =>
      dsimp only
      by_cases hc : is_whitespace c
      · rw [if_pos hc]
        have hlt := peek_lt hp
        obtain ⟨p, hps, hle⟩ := @ih (pos + 1) (by omega)
        exact ⟨p, hps, by omega⟩
      · rw [if_neg hc]
        exact ⟨pos, rfl, Nat.le_refl pos⟩

theorem skip_whitespace_le {input : List Nat} {fuel pos p : Nat}
    (h : skip_whitespace fuel input pos = some p) : pos ≤ p := by
  induction fuel generalizing pos with
  | zero => simp [skip_whitespace] at h
  | succ fuel ih =>
    rw [skip_whitespace] at h
    cases hp : peek input pos with
    | none => rw [hp] at h; injection h with h; omega
    | some c =>
      rw [hp] at h
      dsimp only at h
      by_cases hc : is_whitespace c
      · rw [if_pos hc] at h
        have := ih h
        omega
      · rw [if_neg hc] at h
        injection h with h
        omega

theorem expect_ident_some {s tok : List Nat} {n : Nat}
    (h : expect_ident s = some (tok, n)) :
    tok = s.takeWhile is_name_byte ∧ n = tok.length ∧ 1 ≤ n := by
  rw [expect_ident] at h
  by_cases he : (s.takeWhile is_name_byte).isEmpty
  · rw [if_pos he] at h
    cases h
  · rw [if_neg he] at h
    injection h with h
    injection h with h1 h2
    subst h1
    subst h2
    have hne : s.takeWhile is_name_byte ≠ [] := by
      simpa [List.isEmpty_iff] using he
    exact ⟨rfl, rfl, List.length_pos.mpr hne⟩

end CssSyntax

namespace CssSyntax

/-! ### Facts about the data-type-name scanner -/

theorem parse_data_type_name_isSome {input : List Nat} {fuel start pos : Nat}
    (h : input.length - pos < fuel) :
    (parse_data_type_name fuel input start pos).isSome = true := by
  induction fuel generalizing pos with
  | zero => omega
  | succ fuel ih =>
    rw [parse_data_type_name]
    cases hp : peek input pos with
    | none => rfl
    | some b =>
      dsimp only
      by_cases hb : b != 62
      · rw [if_pos hb]
        have := peek_lt hp
        exact @ih (pos + 1) (by omega)
      · rw [if_neg hb]
        cases DataType.from_bytes ((input.drop start).take (pos - start)) <;> rfl

theorem parse_data_type_name_advance {input : List Nat} {fuel start pos : Nat}
    {ty : DataType} {p : Nat}
    (h : parse_data_type_name fuel input start pos = some (.ok (ty, p))) : pos < p := by
  induction fuel generalizing pos with
  | zero => simp [parse_data_type_name] at h
  | succ fuel ih =>
    rw [parse_data_type_name] at h
    cases hp : peek input pos with
    | none => rw [hp] at h; simp at h
    | some b =>
      rw [hp] at h
      dsimp only at h
      by_cases hb : b != 62
      · rw [if_pos hb] at h
        have := @ih (pos + 1) h
        omega
      · rw [if_neg hb] at h
        cases hd : DataType.from_bytes ((input.drop start).take (pos - start)) with
        | none => rw [hd] at h; simp at h
        | some ty2 =>
          rw [hd] at h
          simp only [Option.some.injEq, Except.ok.injEq, Prod.mk.injEq] at h
          omega

theorem parse_data_type_name_error {input : List Nat} {fuel start pos : Nat} {e : ParseError}
    (h : parse_data_type_name fuel input start pos = some (.error e)) :
    e = .UnclosedDataTypeName ∨ e = .UnknownDataTypeName := by
  induction fuel generalizing pos with
  | zero => simp [parse_data_type_name] at h
  | succ fuel ih =>
    rw [parse_data_type_name] at h
    cases hp : peek input pos with
    | none =>
      rw [hp] at h
      injection h with h
      injection h with h
      exact Or.inl h.symm
    | some b =>
      rw [hp] at h
      dsimp only at h
      by_cases hb : b != 62
      · rw [if_pos hb] at h
        exact @ih (pos + 1) h
      · rw [if_neg hb] at h
        cases hd : DataType.from_bytes ((input.drop start).take (pos - start)) with
        | none =>
          rw [hd] at h
          injection h with h
          injection h with h
          exact Or.inr h.symm
        | some ty2 => rw [hd] at h; simp at h

theorem parse_data_type_name_unclosed {input : List Nat} {fuel start pos : Nat}
    (hno : ∀ i, pos ≤ i → peek input i ≠ some 62)
    (h : input.length - pos < fuel) :
    parse_data_type_name fuel input start pos = some (.error .UnclosedDataTypeName) := by
  induction fuel generalizing pos with
  | zero => omega
  | succ fuel ih =>
    rw [parse_data_type_name]
    cases hp : peek input pos with
    | none => rfl
    | some b =>
      dsimp only
      have hb : ¬b = 62 := by
        intro hb
        exact hno pos (Nat.le_refl pos) (hb ▸ hp)
      rw [if_pos (by simpa using hb)]
      have := peek_lt hp
      exact @ih (pos + 1) (fun i hi => hno i (by omega)) (by omega)

theorem parse_data_type_name_unknown {input : List Nat} {fuel start pos j : Nat}
    (hj : peek input j = some 62)
    (hfirst : ∀ i, pos ≤ i → i < j → peek input i ≠ some 62)
    (hpj : pos ≤ j)
    (hun : DataType.from_bytes ((input.drop start).take (j - start)) = none)
    (h : input.length - pos < fuel) :
    parse_data_type_name fuel input start pos = some (.error .UnknownDataTypeName) := by
  induction fuel generalizing pos with
  | zero => omega
  | succ fuel ih =>
    rcases Nat.lt_or_ge pos j with hlt | hge
    · cases hp : peek input pos with
      | none =>
        exfalso
        have hjlt := peek_lt hj
        have := peek_eq_none.mp hp
        omega
      | some b =>
        rw [parse_data_type_name, hp]
        dsimp only
        have hb : ¬b = 62 := fun hb => hfirst pos (Nat.le_refl pos) hlt (hb ▸ hp)
        rw [if_pos (by simpa using hb)]
        have := peek_lt hp
        exact @ih (pos + 1) (fun i h1 h2 => hfirst i (by omega) h2) (by omega) (by omega)
    · have hpos : pos = j := by omega
      subst hpos
      rw [parse_data_type_name, hj]
      dsimp only
      rw [if_neg (by simp)]
      rw [hun]

end CssSyntax

namespace CssSyntax

/-! ### Facts about name, multiplier and component parsing -/

theorem parse_name_isSome {fuel : Nat} {input : List Nat} {pos : Nat}
    (h : input.length - pos < fuel) : (parse_name fuel input pos).isSome = true := by
  rw [parse_name]
  cases hp : peek input pos with
  | none => rfl
  | some b =>
    dsimp only
    by_cases hb : b == 60
    · rw [if_pos hb]
      have hd := @parse_data_type_name_isSome input fuel (pos + 1) (pos + 1) (by omega)
      cases hd' : parse_data_type_name fuel input (pos + 1) (pos + 1) with
      | none => rw [hd'] at hd; simp at hd
      | some r =>
        cases r with
        | error e => rfl
        | ok v =>
          obtain ⟨ty, p⟩ := v
          rfl
    · rw [if_neg hb]
      by_cases hns : b != 92 && !is_name_start b
      · rw [if_pos hns]; rfl
      · rw [if_neg hns]
        cases expect_ident (input.drop pos) with
        | none => rfl
        | some v =>
          obtain ⟨name, consumed⟩ := v
          dsimp only
          cases CustomIdent.from_ident name <;> rfl

theorem parse_name_advance {fuel : Nat} {input : List Nat} {pos : Nat}
    {n : ComponentName} {p : Nat}
    (h : parse_name fuel input pos = some (.ok (n, p))) : pos < p := by
  rw [parse_name] at h
  cases hp : peek input pos with
  | none => rw [hp] at h; simp at h
  | some b =>
    rw [hp] at h
    dsimp only at h
    by_cases hb : b == 60
    · rw [if_pos hb] at h
      cases hd : parse_data_type_name fuel input (pos + 1) (pos + 1) with
      | none => rw [hd] at h; cases h
      | some r =>
        cases r with
        | error e => rw [hd] at h; simp at h
        | ok v =>
          obtain ⟨ty, p2⟩ := v
          rw [hd] at h
          simp only [Option.some.injEq, Except.ok.injEq, Prod.mk.injEq] at h
          have := parse_data_type_name_advance hd
          omega
    · rw [if_neg hb] at h
      by_cases hns : b != 92 && !is_name_start b
      · rw [if_pos hns] at h; simp at h
      · rw [if_neg hns] at h
        cases he : expect_ident (input.drop pos) with
        | none => rw [he] at h; simp at h
        | some v =>
          obtain ⟨name, consumed⟩ := v
          rw [he] at h
          dsimp only at h
          cases hc : CustomIdent.from_ident name with
          | none => rw [hc] at h; simp at h
          | some id =>
            rw [hc] at h
            simp only [Option.some.injEq, Except.ok.injEq, Prod.mk.injEq] at h
            obtain ⟨-, -, hcons⟩ := expect_ident_some he
            omega

theorem parse_name_error {fuel : Nat} {input : List Nat} {pos : Nat} {e : ParseError}
    (h : parse_name fuel input pos = some (.error e)) :
    e = .UnexpectedEOF ∨ e = .InvalidNameStart ∨ e = .InvalidName ∨
      e = .UnclosedDataTypeName ∨ e = .UnknownDataTypeName := by
  rw [parse_name] at h
  cases hp : peek input pos with
  | none =>
    rw [hp] at h
    injection h with h
    injection h with h
    exact Or.inl h.symm
  | some b =>
    rw [hp] at h
    dsimp only at h
    by_cases hb : b == 60
    · rw [if_pos hb] at h
      cases hd : parse_data_type_name fuel input (pos + 1) (pos + 1) with
      | none => rw [hd] at h; cases h
      | some r =>
        cases r with
        | error e2 =>
          rw [hd] at h
          injection h with h
          injection h with h
          subst h
          rcases parse_data_type_name_error hd with h2 | h2 <;> subst h2 <;> simp
        | ok v =>
          obtain ⟨ty, p⟩ := v
          rw [hd] at h
          simp at h
    · rw [if_neg hb] at h
      by_cases hns : b != 92 && !is_name_start b
      · rw [if_pos hns] at h
        injection h with h
        injection h with h
        subst h
        simp
      · rw [if_neg hns] at h
        cases he : expect_ident (input.drop pos) with
        | none =>
          rw [he] at h
          injection h with h
          injection h with h
          subst h
          simp
        | some v =>
          obtain ⟨name, consumed⟩ := v
          rw [he] at h
          dsimp only at h
          cases hc : CustomIdent.from_ident name with
          | none =>
            rw [hc] at h
            injection h with h
            injection h with h
            subst h
            simp
          | some id => rw [hc] at h; simp at h

theorem parse_multiplier_le (input : List Nat) (pos : Nat) :
    pos ≤ (parse_multiplier input pos).2 := by
  rw [parse_multiplier]
  cases peek input pos with
  | none => exact Nat.le_refl pos
  | some b =>
    dsimp only
    by_cases h43 : b == 43
    · rw [if_pos h43]; omega
    · rw [if_neg h43]
      by_cases h35 : b == 35
      · rw [if_pos h35]; omega
      · rw [if_neg h35]

theorem parse_component_isSome {fuel : Nat} {input : List Nat} {pos : Nat}
    (h : input.length < fuel) : (parse_component fuel input pos).isSome = true := by
  rw [parse_component]
  obtain ⟨p, hps, -⟩ := @skip_whitespace_isSome input fuel pos (by omega)
  rw [hps]
  dsimp only
  have hn := @parse_name_isSome fuel input p (by omega)
  cases hn' : parse_name fuel input p with
  | none => rw [hn'] at hn; simp at hn
  | some r =>
    cases r with
    | error e => rfl
    | ok v =>
      obtain ⟨name, p1⟩ := v
      dsimp only
      by_cases hpre : name.is_pre_multiplied
      · rw [if_pos hpre]; rfl
      · rw [if_neg hpre]
        rcases hm : parse_multiplier input p1 with ⟨m, p2⟩
        rfl

theorem parse_component_advance {fuel : Nat} {input : List Nat} {pos : Nat}
    {c : Component} {p : Nat}
    (h : parse_component fuel input pos = some (.ok (c, p))) : pos < p := by
  rw [parse_component] at h
  cases hs : skip_whitespace fuel input pos with
  | none => rw [hs] at h; cases h
  | some p0 =>
    rw [hs] at h
    dsimp only at h
    have h0 := skip_whitespace_le hs
    cases hn : parse_name fuel input p0 with
    | none => rw [hn] at h; cases h
    | some r =>
      cases r with
      | error e => rw [hn] at h; simp at h
      | ok v =>
        obtain ⟨name, p1⟩ := v
        rw [hn] at h
        dsimp only at h
        have h1 := parse_name_advance hn
        by_cases hpre : name.is_pre_multiplied
        · rw [if_pos hpre] at h
          simp only [Option.some.injEq, Except.ok.injEq, Prod.mk.injEq] at h
          omega
        · rw [if_neg hpre] at h
          rcases hm : parse_multiplier input p1 with ⟨m, p2⟩
          rw [hm] at h
          simp only [Option.some.injEq, Except.ok.injEq, Prod.mk.injEq] at h
          have h2 := parse_multiplier_le input p1
          rw [hm] at h2
          dsimp only at h2
          omega

theorem parse_component_premult {fuel : Nat} {input : List Nat} {pos : Nat}
    {c : Component} {p : Nat}
    (h : parse_component fuel input pos = some (.ok (c, p)))
    (hpre : c.name.is_pre_multiplied = true) : c.multiplier = none := by
  rw [parse_component] at h
  cases hs : skip_whitespace fuel input pos with
  | none => rw [hs] at h; cases h
  | some p0 =>
    rw [hs] at h
    dsimp only at h
    cases hn : parse_name fuel input p0 with
    | none => rw [hn] at h; cases h
    | some r =>
      cases r with
      | error e => rw [hn] at h; simp at h
      | ok v =>
        obtain ⟨name, p1⟩ := v
        rw [hn] at h
        dsimp only at h
        by_cases hp2 : name.is_pre_multiplied
        · rw [if_pos hp2] at h
          simp only [Option.some.injEq, Except.ok.injEq, Prod.mk.injEq] at h
          obtain ⟨h1, -⟩ := h
          subst h1
          rfl
        · rw [if_neg hp2] at h
          rcases hm : parse_multiplier input p1 with ⟨m, p2⟩
          rw [hm] at h
          simp only [Option.some.injEq, Except.ok.injEq, Prod.mk.injEq] at h
          obtain ⟨h1, -⟩ := h
          subst h1
          exact absurd hpre hp2

theorem parse_component_error {fuel : Nat} {input : List Nat} {pos : Nat} {e : ParseError}
    (h : parse_component fuel input pos = some (.error e)) :
    e = .UnexpectedEOF ∨ e = .InvalidNameStart ∨ e = .InvalidName ∨
      e = .UnclosedDataTypeName ∨ e = .UnknownDataTypeName := by
  rw [parse_component] at h
  cases hs : skip_whitespace fuel input pos with
  | none => rw [hs] at h; cases h
  | some p0 =>
    rw [hs] at h
    dsimp only at h
    cases hn : parse_name fuel input p0 with
    | none => rw [hn] at h; cases h
    | some r =>
      cases r with
      | error e2 =>
        rw [hn] at h
        injection h with h
        injection h with h
        subst h
        exact parse_name_error hn
      | ok v =>
        obtain ⟨name, p1⟩ := v
        rw [hn] at h
        dsimp only at h
        by_cases hp2 : name.is_pre_multiplied
        · rw [if_pos hp2] at h; simp at h
        · rw [if_neg hp2] at h
          rcases hm : parse_multiplier input p1 with ⟨m, p2⟩
          rw [hm] at h
          simp at h

end CssSyntax

namespace CssSyntax

/-! ### Facts about the main parser loop -/

theorem Parser.parse_isSome {input : List Nat} {fuel pos : Nat} {output : List Component}
    (h : input.length - pos < fuel) :
    (Parser.parse fuel input pos output).isSome = true := by
  induction fuel generalizing pos output with
  | zero => omega
  | succ fuel ih =>
    rw [Parser.parse]
    cases hp : peek input pos with
    | none =>
      dsimp only
      by_cases ho : output.isEmpty
      · rw [if_pos ho]; rfl
      · rw [if_neg ho]; rfl
    | some byte =>
      dsimp only
      have hlt := peek_lt hp
      by_cases hw : is_whitespace byte
      · rw [if_pos hw]
        exact @ih (pos + 1) output (by omega)
      · rw [if_neg hw]
        by_cases hp124 : byte == 124
        · rw [if_pos hp124]
          by_cases ho : output.isEmpty
          · rw [if_pos ho]; rfl
          · rw [if_neg ho]
            have hc := @parse_component_isSome (input.length + 1) input (pos + 1) (by omega)
            cases hc' : parse_component (input.length + 1) input (pos + 1) with
            | none => rw [hc'] at hc; simp at hc
            | some r =>
              cases r with
              | error e => rfl
              | ok v =>
                obtain ⟨c, p⟩ := v
                have hadv := parse_component_advance hc'
                exact @ih p (output ++ [c]) (by omega)
        · rw [if_neg hp124]
          have hc := @parse_component_isSome (input.length + 1) input pos (by omega)
          cases hc' : parse_component (input.length + 1) input pos with
          | none => rw [hc'] at hc; simp at hc
          | some r =>
            cases r with
            | error e => rfl
            | ok v =>
              obtain ⟨c, p⟩ := v
              have hadv := parse_component_advance hc'
              exact @ih p (output ++ [c]) (by omega)

theorem Parser.parse_premult {input : List Nat} {fuel pos : Nat}
    {output res : List Component}
    (hout : ∀ c ∈ output, c.name.is_pre_multiplied = true → c.multiplier = none)
    (h : Parser.parse fuel input pos output = some (.ok res)) :
    ∀ c ∈ res, c.name.is_pre_multiplied = true → c.multiplier = none := by
  induction fuel generalizing pos output with
  | zero => simp [Parser.parse] at h
  | succ fuel ih =>
    rw [Parser.parse] at h
    cases hp : peek input pos with
    | none =>
      rw [hp] at h
      dsimp only at h
      by_cases ho : output.isEmpty
      · rw [if_pos ho] at h; simp at h
      · rw [if_neg ho] at h
        injection h with h
        injection h with h
        subst h
        exact hout
    | some byte =>
      rw [hp] at h
      dsimp only at h
      by_cases hw : is_whitespace byte
      · rw [if_pos hw] at h
        exact ih hout h
      · rw [if_neg hw] at h
        by_cases hp124 : byte == 124
        · rw [if_pos hp124] at h
          by_cases ho : output.isEmpty
          · rw [if_pos ho] at h; simp at h
          · rw [if_neg ho] at h
            cases hc : parse_component (input.length + 1) input (pos + 1) with
            | none => rw [hc] at h; cases h
            | some r =>
              cases r with
              | error e => rw [hc] at h; simp at h
              | ok v =>
                obtain ⟨c, p⟩ := v
                rw [hc] at h
                refine ih ?_ h
                intro c2 hc2 hpre2
                rcases List.mem_append.mp hc2 with h2 | h2
                · exact hout c2 h2 hpre2
                · rw [List.mem_singleton] at h2
                  subst h2
                  exact parse_component_premult hc hpre2
        · rw [if_neg hp124] at h
          cases hc : parse_component (input.length + 1) input pos with
          | none => rw [hc] at h; cases h
          | some r =>
            cases r with
            | error e => rw [hc] at h; simp at h
            | ok v =>
              obtain ⟨c, p⟩ := v
              rw [hc] at h
              refine ih ?_ h
              intro c2 hc2 hpre2
              rcases List.mem_append.mp hc2 with h2 | h2
              · exact hout c2 h2 hpre2
              · rw [List.mem_singleton] at h2
                subst h2
                exact parse_component_premult hc hpre2

theorem Parser.parse_error {input : List Nat} {fuel pos : Nat} {output : List Component}
    {e : ParseError}
    (h : Parser.parse fuel input pos output = some (.error e)) :
    e ≠ .InvalidCustomIdent := by
  induction fuel generalizing pos output with
  | zero => simp [Parser.parse] at h
  | succ fuel ih =>
    rw [Parser.parse] at h
    cases hp : peek input pos with
    | none =>
      rw [hp] at h
      dsimp only at h
      by_cases ho : output.isEmpty
      · rw [if_pos ho] at h
        injection h with h
        injection h with h
        subst h
        decide
      · rw [if_neg ho] at h; simp at h
    | some byte =>
      rw [hp] at h
      dsimp only at h
      by_cases hw : is_whitespace byte
      · rw [if_pos hw] at h
        exact ih h
      · rw [if_neg hw] at h
        by_cases hp124 : byte == 124
        · rw [if_pos hp124] at h
          by_cases ho : output.isEmpty
          · rw [if_pos ho] at h
            injection h with h
            injection h with h
            subst h
            decide
          · rw [if_neg ho] at h
            cases hc : parse_component (input.length + 1) input (pos + 1) with
            | none => rw [hc] at h; cases h
            | some r =>
              cases r with
              | error e2 =>
                rw [hc] at h
                injection h with h
                injection h with h
                subst h
                rcases parse_component_error hc with h2 | h2 | h2 | h2 | h2 <;>
                  subst h2 <;> decide
              | ok v =>
                obtain ⟨c, p⟩ := v
                rw [hc] at h
                exact ih h
        · rw [if_neg hp124] at h
          cases hc : parse_component (input.length + 1) input pos with
          | none => rw [hc] at h; cases h
          | some r =>
            cases r with
            | error e2 =>
              rw [hc] at h
              injection h with h
              injection h with h
              subst h
              rcases parse_component_error hc with h2 | h2 | h2 | h2 | h2 <;>
                subst h2 <;> decide
            | ok v =>
              obtain ⟨c, p⟩ := v
              rw [hc] at h
              exact ih h

theorem Parser.parse_pipe_empty {fuel : Nat} {input : List Nat} {pos : Nat}
    (hp : peek input pos = some 124) :
    Parser.parse (fuel + 1) input pos [] = some (.error .UnexpectedPipe) := by
  rw [Parser.parse, hp]
  dsimp only
  rw [if_neg (by decide), if_pos (by decide), if_pos (by decide)]

theorem Parser.parse_pipe_step {fuel : Nat} {input : List Nat} {pos : Nat}
    {output : List Component} {c : Component} {p : Nat}
    (ho : output ≠ [])
    (hp : peek input pos = some 124)
    (hc : parse_component (input.length + 1) input (pos + 1) = some (.ok (c, p))) :
    Parser.parse (fuel + 1) input pos output = Parser.parse fuel input p (output ++ [c]) := by
  rw [Parser.parse, hp]
  dsimp only
  rw [if_neg (by decide), if_pos (by decide),
    if_neg (by simpa [List.isEmpty_iff] using ho), hc]

theorem Parser.parse_pipe_step_error {fuel : Nat} {input : List Nat} {pos : Nat}
    {output : List Component} {e : ParseError}
    (ho : output ≠ [])
    (hp : peek input pos = some 124)
    (hc : parse_component (input.length + 1) input (pos + 1) = some (.error e)) :
    Parser.parse (fuel + 1) input pos output = some (.error e) := by
  rw [Parser.parse, hp]
  dsimp only
  rw [if_neg (by decide), if_pos (by decide),
    if_neg (by simpa [List.isEmpty_iff] using ho), hc]

end CssSyntax

namespace CssSyntax

/-! ### Facts about the descriptor entry point -/

theorem parse_descriptor_isSome (input : List Nat) :
    (parse_descriptor input).isSome = true := by
  rw [parse_descriptor, trim_eq_trimSpec]
  dsimp only
  by_cases he : (trimSpec input).isEmpty
  · rw [if_pos he]; rfl
  · rw [if_neg he]
    by_cases hstar : ((trimSpec input).length == 1 && (trimSpec input).get? 0 == some 42) = true
    · rw [if_pos hstar]; rfl
    · rw [if_neg hstar]
      have hp := @Parser.parse_isSome (trimSpec input) ((trimSpec input).length + 1) 0 [] (by omega)
      cases hp' : Parser.parse ((trimSpec input).length + 1) (trimSpec input) 0 [] with
      | none => rw [hp'] at hp; simp at hp
      | some r =>
        cases r with
        | error e => rfl
        | ok comps => rfl

theorem parse_descriptor_error {input : List Nat} {e : ParseError}
    (h : parse_descriptor input = some (.error e)) : e ≠ .InvalidCustomIdent := by
  rw [parse_descriptor, trim_eq_trimSpec] at h
  dsimp only at h
  by_cases he : (trimSpec input).isEmpty
  · rw [if_pos he] at h
    injection h with h
    injection h with h
    subst h
    decide
  · rw [if_neg he] at h
    by_cases hstar : ((trimSpec input).length == 1 && (trimSpec input).get? 0 == some 42) = true
    · rw [if_pos hstar] at h; simp at h
    · rw [if_neg hstar] at h
      cases hp : Parser.parse ((trimSpec input).length + 1) (trimSpec input) 0 [] with
      | none => rw [hp] at h; cases h
      | some r =>
        cases r with
        | error e2 =>
          rw [hp] at h
          injection h with h
          injection h with h
          subst h
          exact Parser.parse_error hp
        | ok comps => rw [hp] at h; simp at h

theorem parse_descriptor_premult {input : List Nat} {d : Descriptor}
    (h : parse_descriptor input = some (.ok d)) :
    ∀ c ∈ d.components, c.name.is_pre_multiplied = true → c.multiplier = none := by
  rw [parse_descriptor, trim_eq_trimSpec] at h
  dsimp only at h
  by_cases he : (trimSpec input).isEmpty
  · rw [if_pos he] at h; simp at h
  · rw [if_neg he] at h
    by_cases hstar : ((trimSpec input).length == 1 && (trimSpec input).get? 0 == some 42) = true
    · rw [if_pos hstar] at h
      injection h with h
      injection h with h
      subst h
      intro c hc
      simp [Descriptor.universal] at hc
    · rw [if_neg hstar] at h
      cases hp : Parser.parse ((trimSpec input).length + 1) (trimSpec input) 0 [] with
      | none => rw [hp] at h; cases h
      | some r =>
        cases r with
        | error e => rw [hp] at h; simp at h
        | ok comps =>
          rw [hp] at h
          injection h with h
          injection h with h
          subst h
          intro c hc
          exact Parser.parse_premult (by simp) hp c hc

theorem trimSpec_all_ws {l : List Nat}
    (h : ∀ b ∈ l, is_ascii_whitespace b = true) : trimSpec l = [] := by
  rw [trimSpec, List.dropWhile_eq_nil_iff.mpr h]
  rfl

theorem trimSpec_of_no_ws {l : List Nat}
    (h : ∀ b ∈ l, is_ascii_whitespace b = false) : trimSpec l = l := by
  have h1 : l.dropWhile is_ascii_whitespace = l := by
    cases l with
    | nil => rfl
    | cons b rest =>
      rw [List.dropWhile_cons, if_neg (by simp [h b (List.mem_cons_self b rest)])]
  have h2 : l.reverse.dropWhile is_ascii_whitespace = l.reverse := by
    cases hr : l.reverse with
    | nil => rfl
    | cons b rest =>
      have hb : b ∈ l := by
        rw [← List.mem_reverse, hr]
        exact List.mem_cons_self b rest
      rw [List.dropWhile_cons, if_neg (by simp [h b hb])]
  rw [trimSpec, h1, h2, List.reverse_reverse]

theorem parse_descriptor_empty {input : List Nat}
    (h : ∀ b ∈ input, is_ascii_whitespace b = true) :
    parse_descriptor input = some (.error .EmptyInput) := by
  rw [parse_descriptor, trim_eq_trimSpec, trimSpec_all_ws h]
  rfl

theorem parse_descriptor_star {input : List Nat}
    (h : trimSpec input = [42]) :
    parse_descriptor input = some (.ok Descriptor.universal) := by
  rw [parse_descriptor, trim_eq_trimSpec, h]
  rfl

end CssSyntax

namespace CssSyntax

/-! ### Letters, casing, and the rejection of reserved keywords -/

theorem is_letter_iff {b : Nat} :
    is_letter b = true ↔ (65 ≤ b ∧ b ≤ 90) ∨ (97 ≤ b ∧ b ≤ 122) := by
  simp [is_letter]

theorem letter_not_ascii_ws {b : Nat} (h : is_letter b = true) :
    is_ascii_whitespace b = false := by
  rw [is_letter_iff] at h
  simp [is_ascii_whitespace]
  omega

theorem letter_not_css_ws {b : Nat} (h : is_letter b = true) :
    is_whitespace b = false := by
  rw [is_letter_iff] at h
  simp [is_whitespace]
  omega

theorem letter_name_start {b : Nat} (h : is_letter b = true) :
    is_name_start b = true := by
  simp [is_name_start, h]

theorem letter_name_byte {b : Nat} (h : is_letter b = true) :
    is_name_byte b = true := by
  simp [is_name_byte, letter_name_start h]

theorem map_lower_letters {s kw : List Nat}
    (hmap : s.map to_ascii_lowercase = kw.map to_ascii_lowercase)
    (hkw : ∀ b ∈ kw, 97 ≤ b ∧ b ≤ 122) :
    ∀ b ∈ s, is_letter b = true := by
  intro b hb
  have hmem : to_ascii_lowercase b ∈ kw.map to_ascii_lowercase := by
    rw [← hmap]
    exact List.mem_map_of_mem _ hb
  obtain ⟨b2, hb2, heq⟩ := List.mem_map.mp hmem
  have h2 := hkw b2 hb2
  have hlow : to_ascii_lowercase b2 = b2 := by
    rw [to_ascii_lowercase, if_neg (by omega)]
  rw [hlow] at heq
  rw [to_ascii_lowercase] at heq
  rw [is_letter_iff]
  by_cases hcap : 65 ≤ b ∧ b ≤ 90
  · exact Or.inl hcap
  · rw [if_neg hcap] at heq
    subst heq
    exact Or.inr h2

theorem skip_whitespace_stop {fuel : Nat} {input : List Nat} {pos : Nat} {b : Nat}
    (hp : peek input pos = some b) (hw : is_whitespace b = false) :
    skip_whitespace (fuel + 1) input pos = some pos := by
  rw [skip_whitespace, hp]
  dsimp only
  rw [if_neg (by simp [hw])]

theorem Parser.parse_step_error {fuel : Nat} {input : List Nat} {pos : Nat}
    {output : List Component} {e : ParseError} {b : Nat}
    (hp : peek input pos = some b)
    (hw : is_whitespace b = false)
    (hpipe : ¬b = 124)
    (hc : parse_component (input.length + 1) input pos = some (.error e)) :
    Parser.parse (fuel + 1) input pos output = some (.error e) := by
  rw [Parser.parse, hp]
  dsimp only
  rw [if_neg (by simp [hw]), if_neg (by simpa using hpipe), hc]

theorem expect_ident_all {s : List Nat} (hs : s ≠ [])
    (h : ∀ b ∈ s, is_name_byte b = true) :
    expect_ident s = some (s, s.length) := by
  rw [expect_ident]
  rw [List.takeWhile_eq_self_iff.mpr h]
  rw [if_neg (by simpa [List.isEmpty_iff] using hs)]

theorem reserved_rejected {s kw : List Nat}
    (hkwmem : kw = strBytes "inherit" ∨ kw = strBytes "reset" ∨ kw = strBytes "revert" ∨
      kw = strBytes "unset" ∨ kw = strBytes "default")
    (hcase : eq_ignore_ascii_case s kw = true) :
    parse_descriptor s = some (.error .InvalidName) := by
  have hmap : s.map to_ascii_lowercase = kw.map to_ascii_lowercase := by
    simpa [eq_ignore_ascii_case] using hcase
  have hkwlow : ∀ b ∈ kw, 97 ≤ b ∧ b ≤ 122 := by
    rcases hkwmem with rfl | rfl | rfl | rfl | rfl <;> decide
  have hletters := map_lower_letters hmap hkwlow
  have hkwne : kw ≠ [] := by
    rcases hkwmem with rfl | rfl | rfl | rfl | rfl <;> decide
  have hfi : CustomIdent.from_ident s = none := by
    rw [CustomIdent.from_ident]
    rcases hkwmem with rfl | rfl | rfl | rfl | rfl <;> rw [if_pos (by simp [hcase])]
  cases s with
  | nil =>
    exfalso
    simp at hmap
    exact hkwne hmap
  | cons b0 rest =>
    have hb0 : is_letter b0 = true := hletters b0 (List.mem_cons_self _ _)
    have hb0' := is_letter_iff.mp hb0
    have hnws : ∀ b ∈ b0 :: rest, is_ascii_whitespace b = false :=
      fun b hb => letter_not_ascii_ws (hletters b hb)
    rw [parse_descriptor, trim_eq_trimSpec, trimSpec_of_no_ws hnws]
    dsimp only
    rw [if_neg (by simp)]
    have hstar : ¬(((b0 :: rest).length == 1 && (b0 :: rest).get? 0 == some 42) = true) := by
      intro hcontra
      rw [Bool.and_eq_true, beq_iff_eq, beq_iff_eq] at hcontra
      have hb42 : b0 = 42 := by
        have h0 := hcontra.2
        simp [List.get?] at h0
        exact h0
      omega
    rw [if_neg hstar]
    have hcomp : parse_component ((b0 :: rest).length + 1) (b0 :: rest) 0 =
        some (.error .InvalidName) := by
      rw [parse_component]
      rw [@skip_whitespace_stop ((b0 :: rest).length) (b0 :: rest) 0 b0 rfl (letter_not_css_ws hb0)]
      dsimp only
      rw [parse_name]
      rw [show peek (b0 :: rest) 0 = some b0 from rfl]
      dsimp only
      rw [if_neg (by simp; omega)]
      rw [if_neg (by simp [letter_name_start hb0])]
      rw [List.drop_zero]
      rw [expect_ident_all (by simp) (fun b hb => letter_name_byte (hletters b hb))]
      dsimp only
      rw [hfi]
    rw [@Parser.parse_step_error ((b0 :: rest).length) (b0 :: rest) 0 [] ParseError.InvalidName b0 rfl (letter_not_css_ws hb0) (by omega) hcomp]

end CssSyntax

namespace CssSyntax

/-! ### The claims -/

/-- C1: parsing `"foo <length>#"` succeeds with exactly two components in
order — the custom identifier `foo` with no multiplier, then the `Length`
data type with the `Comma` multiplier — so two adjacent components separated
only by whitespace, with no `|` between them, are accepted back-to-back. -/
theorem parse_foo_length_two_components :
    parse_descriptor (strBytes "foo <length>#") =
      some (.ok ⟨[⟨.Ident ⟨strBytes "foo"⟩, none⟩,
        ⟨.DataType .Length, some .Comma⟩]⟩) := rfl

/-- C2: in every successfully parsed Descriptor, a component whose name is
a pre-multiplied data type carries no multiplier; concretely, parsing a
component from `"<transform-list>+"` stops right after the `>` (position 16)
with no multiplier, leaving the `+` unconsumed. -/
theorem premultiplied_never_carries_multiplier :
    (∀ (input : List Nat) (d : Descriptor),
        parse_descriptor input = some (.ok d) →
        ∀ c ∈ d.components, c.name.is_pre_multiplied = true → c.multiplier = none) ∧
    parse_component ((strBytes "<transform-list>+").length + 1)
        (strBytes "<transform-list>+") 0 =
      some (.ok (⟨.DataType .TransformList, none⟩, 16)) :=
  ⟨fun _ _ h => parse_descriptor_premult h, rfl⟩

theorem premultiplied_never_carries_multiplier_witness :
    Component.multiplier ⟨.DataType .TransformList, none⟩ = none :=
  premultiplied_never_carries_multiplier.1 (strBytes "<transform-list>")
    ⟨[⟨.DataType .TransformList, none⟩]⟩ rfl ⟨.DataType .TransformList, none⟩
    (List.mem_singleton.mpr rfl) rfl

/-- C3: un-premultiplication maps `TransformList` to exactly the component
`{name := DataType TransformFunction, multiplier := some Space}` and every
other data type and every custom identifier to `none`; accordingly
`Component.unpremultipied` replaces a `TransformList`-named component by
that expansion and returns every other component unchanged. -/
theorem unpremultiply_mapping :
    DataType.unpremultiply .TransformList =
        some ⟨.DataType .TransformFunction, some .Space⟩ ∧
    (∀ t : DataType, t ≠ .TransformList → t.unpremultiply = none) ∧
    (∀ i : CustomIdent, (ComponentName.Ident i).unpremultiply = none) ∧
    (∀ c : Component, c.name = .DataType .TransformList →
        c.unpremultipied = ⟨.DataType .TransformFunction, some .Space⟩) ∧
    (∀ c : Component, c.name ≠ .DataType .TransformList → c.unpremultipied = c) := by
  refine ⟨rfl, ?_, ?_, ?_, ?_⟩
  · intro t ht
    cases t <;> first | rfl | exact absurd rfl ht
  · intro i
    rfl
  · intro c hc
    rw [Component.unpremultipied, hc]
    rfl
  · intro c hc
    rw [Component.unpremultipied]
    have hnone : c.name.unpremultiply = none := by
      cases hn : c.name with
      | DataType t =>
        cases t <;> first | rfl | exact absurd hn hc
      | Ident i => rfl
    rw [hnone]

theorem unpremultiply_mapping_witness :
    DataType.unpremultiply .Length = none ∧
    ComponentName.unpremultiply (.Ident ⟨strBytes "foo"⟩) = none ∧
    Component.unpremultipied ⟨.DataType .TransformList, none⟩ =
      ⟨.DataType .TransformFunction, some .Space⟩ ∧
    Component.unpremultipied ⟨.DataType .Length, some .Comma⟩ =
      ⟨.DataType .Length, some .Comma⟩ :=
  ⟨unpremultiply_mapping.2.1 .Length (by decide),
   unpremultiply_mapping.2.2.1 ⟨strBytes "foo"⟩,
   unpremultiply_mapping.2.2.2.1 ⟨.DataType .TransformList, none⟩ rfl,
   unpremultiply_mapping.2.2.2.2 ⟨.DataType .Length, some .Comma⟩ (by decide)⟩

/-- C4: `parse_descriptor` first strips leading and trailing ASCII
whitespace (its trimming step equals the specification's trim); every input
that is empty or all ASCII whitespace fails with `EmptyInput`; and every
input whose trimmed form is exactly `*` yields the universal
(zero-component) Descriptor. -/
theorem descriptor_trim_empty_star :
    (∀ input : List Nat, trim_ascii_whitespace input = some (trimSpec input)) ∧
    (∀ input : List Nat, (∀ b ∈ input, is_ascii_whitespace b = true) →
        parse_descriptor input = some (.error .EmptyInput)) ∧
    (∀ input : List Nat, trimSpec input = [42] →
        parse_descriptor input = some (.ok Descriptor.universal)) :=
  ⟨trim_eq_trimSpec, fun _ h => parse_descriptor_empty h, fun _ h => parse_descriptor_star h⟩

theorem descriptor_trim_empty_star_witness :
    parse_descriptor (strBytes " \t ") = some (.error .EmptyInput) ∧
    parse_descriptor (strBytes " * ") = some (.ok Descriptor.universal) :=
  ⟨descriptor_trim_empty_star.2.1 (strBytes " \t ") (by decide),
   descriptor_trim_empty_star.2.2 (strBytes " * ") rfl⟩

/-- C5: for every reserved CSS-wide keyword (inherit, reset, revert, unset,
default) in any ASCII casing, parsing a descriptor consisting of exactly
that identifier fails with `InvalidName` (the `InvalidName`/
`InvalidCustomIdent` rejection); such a descriptor never succeeds. -/
theorem reserved_keyword_never_parses (s kw : List Nat)
    (hkw : kw ∈ [strBytes "inherit", strBytes "reset", strBytes "revert",
      strBytes "unset", strBytes "default"])
    (hcase : eq_ignore_ascii_case s kw = true) :
    parse_descriptor s = some (.error .InvalidName) := by
  apply reserved_rejected ?_ hcase
  simpa using hkw

theorem reserved_keyword_never_parses_witness :
    parse_descriptor (strBytes "InHeRiT") = some (.error .InvalidName) :=
  reserved_keyword_never_parses (strBytes "InHeRiT") (strBytes "inherit")
    (by simp) rfl

/-- C6: a `|` before any component fails with `UnexpectedPipe` (e.g. for
`"|foo"`), while after at least one component the `|` is consumed and the
next component is parsed (e.g. `"foo|<length>"` yields two components). -/
theorem pipe_required_before_first_component :
    parse_descriptor (strBytes "|foo") = some (.error .UnexpectedPipe) ∧
    parse_descriptor (strBytes "foo|<length>") =
      some (.ok ⟨[⟨.Ident ⟨strBytes "foo"⟩, none⟩, ⟨.DataType .Length, none⟩]⟩) ∧
    (∀ (fuel : Nat) (input : List Nat) (pos : Nat),
        peek input pos = some 124 →
        Parser.parse (fuel + 1) input pos [] = some (.error .UnexpectedPipe)) ∧
    (∀ (fuel : Nat) (input : List Nat) (pos : Nat) (output : List Component)
        (c : Component) (p : Nat),
        output ≠ [] → peek input pos = some 124 →
        parse_component (input.length + 1) input (pos + 1) = some (.ok (c, p)) →
        Parser.parse (fuel + 1) input pos output = Parser.parse fuel input p (output ++ [c])) :=
  ⟨rfl, rfl, fun _ _ _ hp => Parser.parse_pipe_empty hp,
   fun _ _ _ _ _ _ ho hp hc => Parser.parse_pipe_step ho hp hc⟩

theorem pipe_required_before_first_component_witness :
    Parser.parse 1 (strBytes "|") 0 [] = some (.error .UnexpectedPipe) ∧
    Parser.parse 3 (strBytes "|a") 0 [⟨.DataType .Length, none⟩] =
      Parser.parse 2 (strBytes "|a") 2
        ([⟨.DataType .Length, none⟩] ++ [⟨.Ident ⟨strBytes "a"⟩, none⟩]) :=
  ⟨pipe_required_before_first_component.2.2.1 0 (strBytes "|") 0 rfl,
   pipe_required_before_first_component.2.2.2 2 (strBytes "|a") 0
     [⟨.DataType .Length, none⟩] ⟨.Ident ⟨strBytes "a"⟩, none⟩ 2 (by simp) rfl rfl⟩

/-- C7: after a `<`, the scanner collects bytes until a `>`; reaching end of
input first fails with `UnclosedDataTypeName` (e.g. `"<length"`), and a
bracketed text that is not an exact byte match for a built-in data-type name
fails with `UnknownDataTypeName` (e.g. `"<unknown-type>"`). -/
theorem data_type_name_failures :
    parse_descriptor (strBytes "<length") = some (.error .UnclosedDataTypeName) ∧
    parse_descriptor (strBytes "<unknown-type>") = some (.error .UnknownDataTypeName) ∧
    (∀ (fuel : Nat) (input : List Nat) (start pos : Nat),
        (∀ i, pos ≤ i → peek input i ≠ some 62) →
        input.length - pos < fuel →
        parse_data_type_name fuel input start pos = some (.error .UnclosedDataTypeName)) ∧
    (∀ (fuel : Nat) (input : List Nat) (start pos j : Nat),
        peek input j = some 62 →
        (∀ i, pos ≤ i → i < j → peek input i ≠ some 62) →
        pos ≤ j →
        DataType.from_bytes ((input.drop start).take (j - start)) = none →
        input.length - pos < fuel →
        parse_data_type_name fuel input start pos = some (.error .UnknownDataTypeName)) :=
  ⟨rfl, rfl, fun _ _ _ _ hno h => parse_data_type_name_unclosed hno h,
   fun _ _ _ _ _ hj hf hpj hun h => parse_data_type_name_unknown hj hf hpj hun h⟩

theorem data_type_name_failures_witness :
    parse_data_type_name 3 (strBytes "ab") 0 0 = some (.error .UnclosedDataTypeName) ∧
    parse_data_type_name 3 (strBytes "x>") 0 0 = some (.error .UnknownDataTypeName) :=
  ⟨data_type_name_failures.2.2.1 3 (strBytes "ab") 0 0
      (by
        intro i _
        match i with
        | 0 => decide
        | 1 => decide
        | n + 2 =>
          intro hc
          rw [show peek (strBytes "ab") (n + 2) = none from rfl] at hc
          cases hc)
      (by decide),
   data_type_name_failures.2.2.2 3 (strBytes "x>") 0 0 1 rfl
      (by
        intro i h1 h2
        have h0 : i = 0 := by omega
        subst h0
        decide)
      (by omega) rfl (by decide)⟩

/-- C8: `parse_descriptor` terminates on every input — the fuel bound
`input.length + 1` always suffices (the result is never the fuel-exhaustion
marker), because a successfully parsed component strictly advances the
cursor, so each loop iteration advances by at least one byte or exits. -/
theorem descriptor_parsing_terminates :
    (∀ input : List Nat, (parse_descriptor input).isSome = true) ∧
    (∀ (fuel : Nat) (input : List Nat) (pos : Nat) (c : Component) (p : Nat),
        parse_component fuel input pos = some (.ok (c, p)) → pos < p) :=
  ⟨parse_descriptor_isSome, fun _ _ _ _ _ h => parse_component_advance h⟩

theorem descriptor_parsing_terminates_witness :
    (parse_descriptor (strBytes "foo")).isSome = true ∧ (0 : Nat) < 3 :=
  ⟨descriptor_parsing_terminates.1 (strBytes "foo"),
   descriptor_parsing_terminates.2 4 (strBytes "foo") 0
     ⟨.Ident ⟨strBytes "foo"⟩, none⟩ 3 rfl⟩

/-- C9: `trim_ascii_whitespace` returns the maximal contiguous sub-slice
with no leading or trailing ASCII-whitespace byte (the specification's
trim), returns the empty slice for an empty or all-whitespace input, and
never panics — in particular its `assert!(start < end)` (the `none` outcome
of the model) is unreachable. -/
theorem trim_never_panics :
    (∀ l : List Nat, trim_ascii_whitespace l = some (trimSpec l)) ∧
    (∀ l : List Nat, (∀ b ∈ l, is_ascii_whitespace b = true) →
        trim_ascii_whitespace l = some []) := by
  refine ⟨trim_eq_trimSpec, fun l h => ?_⟩
  rw [trim_eq_trimSpec, trimSpec_all_ws h]

theorem trim_never_panics_witness :
    trim_ascii_whitespace (strBytes " \t\n") = some [] :=
  trim_never_panics.2 (strBytes " \t\n") (by decide)

/-- C10: no input makes `parse_descriptor` return the `InvalidCustomIdent`
error variant — both tokenizer failure and reserved-keyword rejection are
reported as `InvalidName`, so the variant is declared but never produced. -/
theorem invalid_custom_ident_never_produced :
    ∀ input : List Nat, isInvalidCustomIdentResult (parse_descriptor input) = false := by
  intro input
  cases hp : parse_descriptor input with
  | none => rfl
  | some r =>
    cases r with
    | error e =>
      have hne := parse_descriptor_error hp
      cases e <;> first | rfl | exact absurd rfl hne
    | ok d => rfl

end CssSyntax
